import Mathlib

/-!
Shallow embedding of the `dsl_lab2` grammar-normalization and
recursive-descent membership checker (src/grammar/grammar.py,
src/grammar/prefix_tree.py), together with theorems settling the
frozen claims about it.

Modelling conventions:
* a Python `chr` terminal is a `Char`, a non-terminal `int` is an `Int`
  (fresh non-terminals can be negative, `min-existing - 1`);
* a Python `dict` is an insertion-ordered association list
  (`d[k] = v` updates in place or appends a new key at the end);
* a Python `set` is a duplicate-free list; iteration order is the
  insertion order (CPython's set iteration order is unspecified; this
  embedding fixes one admissible order);
* `while` loops whose termination is not structural take an explicit
  `fuel : Nat`; every loop exits early at its fixpoint exactly as the
  Python loop does, so any sufficiently large fuel yields the Python
  result;
* Python exceptions (`KeyError` from `del_rule` / missing mappings,
  `IndexError` from `deriv[0]`) are modelled with `Except String`.
-/

namespace Dsl

/-- A grammar symbol: a terminal character or an integer non-terminal.
The Python source distinguishes them by runtime type. -/
inductive Symb where
  | t : Char → Symb
  | nt : Int → Symb
deriving DecidableEq, Repr

/-- A derivation (one right-hand side): an ordered sequence of symbols.
`[]` is the empty word ε (`EmptyWord` in the source). -/
abbrev Derivation := List Symb

/-- A set of right-hand sides of one non-terminal (Python `Set[Derivation]`). -/
abbrev RuleSet := List Derivation

/-- The rule mapping (Python `Dict[NonTerminal, Set[Derivation]]`). -/
abbrev Rules := List (Int × RuleSet)

/-- The grammar store: a start non-terminal and the rule mapping. -/
structure Grammar where
  initial : Int
  rules : Rules
deriving DecidableEq, Repr

/-- Python `k in d` / `d[k]` lookup on an insertion-ordered dict. -/
def lookupR : Rules → Int → Option RuleSet
  | [], _ => none
  | (k, s) :: rest, n => if k = n then some s else lookupR rest n

/-- Python `d[k] = v`: update in place, or append the new key at the end. -/
def updateR : Rules → Int → RuleSet → Rules
  | [], n, v => [(n, v)]
  | (k, s) :: rest, n, v =>
    if k = n then (n, v) :: rest else (k, s) :: updateR rest n v

/-- Python `del d[k]`: remove the key, preserving the order of the others. -/
def eraseR : Rules → Int → Rules
  | [], _ => []
  | (k, s) :: rest, n => if k = n then rest else (k, s) :: eraseR rest n

/-- Python `set.add`: append if not already present. -/
def addDeriv (s : RuleSet) (d : Derivation) : RuleSet :=
  if s.contains d then s else s ++ [d]

/-- `Grammar.add_rule` (grammar.py:120): create the key's set on demand,
then set-add the derivation. -/
def addRule (g : Grammar) (n : Int) (d : Derivation) : Grammar :=
  match lookupR g.rules n with
  | none => { g with rules := g.rules ++ [(n, [d])] }
  | some s => { g with rules := updateR g.rules n (addDeriv s d) }

/-- `Grammar.del_rule` (grammar.py:132): `rules[nterm].remove(deriv)` raises
`KeyError` when the key or the derivation is absent; the key is dropped
when its set becomes empty. -/
def delRule (g : Grammar) (n : Int) (d : Derivation) : Except String Grammar :=
  match lookupR g.rules n with
  | none => .error "KeyError"
  | some s =>
    if s.contains d then
      let s' := s.erase d
      if s' = [] then .ok { g with rules := eraseR g.rules n }
      else .ok { g with rules := updateR g.rules n s' }
    else .error "KeyError"

/-- `Grammar.__iter__` (grammar.py:151): all (lhs, rhs) pairs, keys in
mapping order, derivations in set order. -/
def grammarPairs (g : Grammar) : List (Int × Derivation) :=
  g.rules.flatMap (fun kv => kv.2.map (fun d => (kv.1, d)))

/-- Python set equality of two derivation sets (same elements). -/
def derivSetEq (s u : RuleSet) : Bool :=
  s.all (fun d => u.contains d) && u.all (fun d => s.contains d)

/-- `Grammar.__eq__` (grammar.py:77): compares the start symbols, then for
every key of `self` demands the same derivation set in `other`.  Keys
present only in `other` are not examined. -/
def grammarEq (a b : Grammar) : Bool :=
  a.initial == b.initial &&
    a.rules.all (fun kv =>
      match lookupR b.rules kv.1 with
      | none => false
      | some s => derivSetEq kv.2 s)

/-- `Grammar.max_nterm` (grammar.py:92): maximum over the start symbol,
every lhs key and every rhs non-terminal occurrence. -/
def maxNterm (g : Grammar) : Int :=
  (grammarPairs g).foldl
    (fun m kd =>
      let m1 := if kd.1 > m then kd.1 else m
      kd.2.foldl
        (fun mm s =>
          match s with
          | .nt k => if k > mm then k else mm
          | .t _ => mm) m1)
    g.initial

/-- `Grammar.min_nterm` (grammar.py:106).  The lhs scan keeps the literal
`if nterm > minimal: minimal = nterm` comparison of the source; only the
rhs occurrences are compared with `<`. -/
def minNterm (g : Grammar) : Int :=
  (grammarPairs g).foldl
    (fun m kd =>
      let m1 := if kd.1 > m then kd.1 else m
      kd.2.foldl
        (fun mm s =>
          match s with
          | .nt k => if k < mm then k else mm
          | .t _ => mm) m1)
    g.initial

/-- `fully_propertiable` (grammar.py:45): every non-terminal of the
derivation belongs to the property set. -/
def fullyPropertiable (property : List Int) (d : Derivation) : Bool :=
  d.all fun s =>
    match s with
    | .nt n => property.contains n
    | .t _ => true

/-- True when the derivation consists of terminals only. -/
def terminalOnly (d : Derivation) : Bool :=
  d.all fun s =>
    match s with
    | .t _ => true
    | .nt _ => false

/-- Membership of a symbol in a list of non-terminal identifiers: a
terminal is never a member (Python `symb not in vanishing` where the set
holds ints). -/
def symbolInList (v : List Int) : Symb → Bool
  | .nt n => v.contains n
  | .t _ => false

/-- Set-add of an `Int` to an insertion-ordered list. -/
def addInt (v : List Int) (n : Int) : List Int :=
  if v.contains n then v else v ++ [n]

/-! ### `_remove_dead` (grammar.py:216) -/

/-- Seed of the terminable set: lhs of every terminal-only rule. -/
def deadSeed (g : Grammar) : List Int :=
  (grammarPairs g).foldl
    (fun acc kd => if terminalOnly kd.2 then addInt acc kd.1 else acc) []

/-- One `while changes` pass of `_remove_dead`: a lhs joins when one of
its derivations is fully propertiable by the current set. -/
def deadPass (g : Grammar) (ht : List Int) : List Int × Bool :=
  (grammarPairs g).foldl
    (fun acc kd =>
      if ¬ acc.1.contains kd.1 ∧ fullyPropertiable acc.1 kd.2 then
        (acc.1 ++ [kd.1], true)
      else acc)
    (ht, false)

/-- Iterate `deadPass` to its fixpoint (the Python loop exits when a pass
changes nothing). -/
def deadLoop (g : Grammar) : Nat → List Int → List Int
  | 0, ht => ht
  | fuel + 1, ht =>
    let p := deadPass g ht
    if p.2 then deadLoop g fuel p.1 else p.1

/-- `_remove_dead`: keep only terminable lhs and their fully-propertiable
rules, rebuilding a fresh grammar with the same start in iteration order. -/
def removeDead (g : Grammar) (fuel : Nat) : Grammar :=
  let ht := deadLoop g fuel (deadSeed g)
  (grammarPairs g).foldl
    (fun acc kd =>
      if ht.contains kd.1 ∧ fullyPropertiable ht kd.2 then addRule acc kd.1 kd.2
      else acc)
    { initial := g.initial, rules := [] }

/-! ### `_remove_unreachable` (grammar.py:260) -/

/-- BFS worklist step loop: `queue.pop()` takes the most recently appended
element (Python pops from the end of the list), skips keyless
non-terminals, and records every new rhs non-terminal. -/
def reachLoop (g : Grammar) : Nat → List Int → List Int → List Int
  | 0, reachable, _ => reachable
  | _ + 1, reachable, [] => reachable
  | fuel + 1, reachable, n :: stack =>
    match lookupR g.rules n with
    | none => reachLoop g fuel reachable stack
    | some derivs =>
      let rs := derivs.foldl
        (fun (acc : List Int × List Int) d =>
          d.foldl
            (fun (acc : List Int × List Int) s =>
              match s with
              | .nt m =>
                if acc.1.contains m then acc else (acc.1 ++ [m], m :: acc.2)
              | .t _ => acc) acc)
        (reachable, stack)
      reachLoop g fuel rs.1 rs.2

/-- `_remove_unreachable`: keep the lhs reachable from the start symbol. -/
def removeUnreachable (g : Grammar) (fuel : Nat) : Grammar :=
  let reachable := reachLoop g fuel [g.initial] [g.initial]
  (grammarPairs g).foldl
    (fun acc kd =>
      if reachable.contains kd.1 then addRule acc kd.1 kd.2 else acc)
    { initial := g.initial, rules := [] }

/-- `_remove_useless` (grammar.py:651): dead removal, then unreachable
removal, in that order. -/
def removeUseless (g : Grammar) (fuel : Nat) : Grammar :=
  removeUnreachable (removeDead g fuel) fuel

/-! ### `_vanishing` (grammar.py:346) -/

/-- Seed: every lhs with a direct ε-production. -/
def vanishingSeed (g : Grammar) : List Int :=
  (grammarPairs g).foldl
    (fun acc kd => if kd.2 = [] then addInt acc kd.1 else acc) []

/-- One closure pass: a lhs joins when every symbol of one of its
derivations is already in the set.  (The source's `type(symb) == Terminal`
test compares against the builtin function `chr` and is always false; the
effective test, mirrored here, is set membership, which no terminal
passes.) -/
def vanishingPass (g : Grammar) (v : List Int) : List Int × Bool :=
  (grammarPairs g).foldl
    (fun acc kd =>
      if acc.1.contains kd.1 then acc
      else if kd.2.all (fun s => symbolInList acc.1 s) then
        (acc.1 ++ [kd.1], true)
      else acc)
    (v, false)

/-- Iterate the closure to its fixpoint. -/
def vanishingLoop (g : Grammar) : Nat → List Int → List Int
  | 0, v => v
  | fuel + 1, v =>
    let p := vanishingPass g v
    if p.2 then vanishingLoop g fuel p.1 else p.1

/-- `_vanishing`: the non-terminals that derive ε in zero or more steps. -/
def vanishing (g : Grammar) (fuel : Nat) : List Int :=
  vanishingLoop g fuel (vanishingSeed g)

/-! ### `_rebuild_vanishing` (grammar.py:294) -/

/-- The first loop of `_rebuild_vanishing`: `del_rule(nterm, EmptyWord)`
for every vanishing non-terminal, in order; a missing ε-rule raises
`KeyError`. -/
def delEpsAll (g : Grammar) : List Int → Except String Grammar
  | [] => .ok g
  | n :: rest => do
    let g' ← delRule g n []
    delEpsAll g' rest

/-- Indices at which the non-terminal `v` occurs in a derivation. -/
def occIdx (v : Int) (d : Derivation) : List Nat :=
  (List.range d.length).filter (fun i => d.getD i (.t ' ') = Symb.nt v)

/-- Per-key body of the worklist pass: collect the occurrence queue from
the current set, add every one-occurrence deletion that is non-empty, and
report whether the set grew. -/
def rebuildOneKey (v : Int) (g : Grammar) (k : Int) : Grammar × Bool :=
  match lookupR g.rules k with
  | none => (g, false)
  | some s =>
    let queue := s.flatMap (fun d => (occIdx v d).map (fun i => (i, d)))
    let lenBefore := s.length
    let g' := queue.foldl
      (fun acc (p : Nat × Derivation) =>
        let nd := p.2.eraseIdx p.1
        if nd.length ≠ 0 then addRule acc k nd else acc) g
    let lenAfter := ((lookupR g'.rules k).getD []).length
    (g', lenBefore ≠ lenAfter)

/-- One worklist iteration over all keys of the mapping. -/
def rebuildPass (v : Int) (g : Grammar) : Grammar × Bool :=
  (g.rules.map (fun kv => kv.1)).foldl
    (fun acc k =>
      let r := rebuildOneKey v acc.1 k
      (r.1, acc.2 || r.2))
    (g, false)

/-- The `while len(vanishing) > 0` worklist: pop a vanishing symbol,
process every key, and re-add the symbol when something grew.  Returns
the grammar together with the remaining worklist (the Python loop
consumes the `vanishing` set, which `prepare_for_checking` inspects
afterwards). -/
def rebuildLoop (g : Grammar) : Nat → List Int → Grammar × List Int
  | 0, work => (g, work)
  | _ + 1, [] => (g, [])
  | fuel + 1, v :: rest =>
    let p := rebuildPass v g
    rebuildLoop p.1 fuel (if p.2 then rest ++ [v] else rest)

/-- `_rebuild_vanishing`: delete the direct ε-rule of every vanishing
non-terminal, then close the rule sets under single-occurrence deletion
of vanishing symbols. -/
def rebuildVanishing (g : Grammar) (van : List Int) (fuel : Nat) :
    Except String (Grammar × List Int) := do
  let g' ← delEpsAll g van
  .ok (rebuildLoop g' fuel van)

/-! ### `_remove_chain_productions` (grammar.py:383) -/

/-- The chain-pair dictionary: `Int → set of Int`. -/
abbrev CP := List (Int × List Int)

def lookupCP : CP → Int → Option (List Int)
  | [], _ => none
  | (k, s) :: rest, n => if k = n then some s else lookupCP rest n

def updateCP : CP → Int → List Int → CP
  | [], n, v => [(n, v)]
  | (k, s) :: rest, n, v =>
    if k = n then (n, v) :: rest else (k, s) :: updateCP rest n v

/-- Record a direct unit production `L → R`. -/
def insertCP (cp : CP) (l r : Int) : CP :=
  match lookupCP cp l with
  | none => cp ++ [(l, [r])]
  | some s => updateCP cp l (if s.contains r then s else s ++ [r])

/-- Direct unit productions of the grammar. -/
def chainSeed (g : Grammar) : CP :=
  (grammarPairs g).foldl
    (fun cp kd =>
      match kd.2 with
      | [Symb.nt m] => insertCP cp kd.1 m
      | _ => cp) []

/-- One transitive-closure pass: for every pair `(L, R)` with `R` itself a
chain lhs, union `R`'s targets into `L`'s. -/
def chainPass (cp0 : CP) : CP × Bool :=
  (cp0.map (fun kv => kv.1)).foldl
    (fun (acc : CP × Bool) l =>
      let snapshot := (lookupCP acc.1 l).getD []
      snapshot.foldl
        (fun (acc : CP × Bool) r =>
          match lookupCP acc.1 r with
          | none => acc
          | some rset =>
            let cur := (lookupCP acc.1 l).getD []
            let merged := rset.foldl (fun u x => if u.contains x then u else u ++ [x]) cur
            (updateCP acc.1 l merged, acc.2 || decide (cur.length < merged.length)))
        acc)
    (cp0, false)

def chainLoop : Nat → CP → CP
  | 0, cp => cp
  | fuel + 1, cp =>
    let p := chainPass cp
    if p.2 then chainLoop fuel p.1 else p.1

/-- The replacement loop: for every closure pair `(L, R)`, delete the unit
rule `L → R` (KeyError when absent) and add every current rule of `R` to
`L` (KeyError when `R` has no rules). -/
def chainApply (g0 : Grammar) (cp : CP) : Except String Grammar :=
  cp.foldlM
    (fun g (kv : Int × List Int) =>
      kv.2.foldlM
        (fun g r => do
          let g' ← delRule g kv.1 [Symb.nt r]
          match lookupR g'.rules r with
          | none => .error "KeyError"
          | some rs => .ok (rs.foldl (fun acc a => addRule acc kv.1 a) g'))
        g)
    g0

/-- `_remove_chain_productions`. -/
def removeChainProductions (g : Grammar) (fuel : Nat) : Except String Grammar :=
  chainApply g (chainLoop fuel (chainSeed g))

/-! ### `_has_cycle` / `_has_left_recursion` (grammar.py:442) -/

/-- Set-add of a symbol. -/
def addSymb (v : List Symb) (s : Symb) : List Symb :=
  if v.contains s then v else v ++ [s]

/-- The inner symbol loop of `_has_cycle` over one derivation.  The
source's `type(symb) == Terminal` guard compares with the builtin `chr`
and never fires, so every symbol reaches the grey/black logic; a terminal
is never grey, is explored once into black, is never vanishing, and so
breaks the loop, which is what the guard intended. -/
def cycleScanSym
    (recur : Symb → List Symb → List Symb → Option (Bool × List Symb × List Symb))
    (van : List Int) :
    List Symb → List Symb → List Symb → Option (Bool × List Symb × List Symb)
  | [], grey, black => some (false, grey, black)
  | s :: rest, grey, black =>
    if grey.contains s then some (true, grey, black)
    else
      match (if black.contains s then some (false, grey, black) else recur s grey black) with
      | none => none
      | some (true, g1, b1) => some (true, g1, b1)
      | some (false, g1, b1) =>
        if symbolInList van s then cycleScanSym recur van rest g1 b1
        else some (false, g1, b1)

/-- The derivation loop of `_has_cycle`. -/
def cycleScanDerivs
    (recur : Symb → List Symb → List Symb → Option (Bool × List Symb × List Symb))
    (van : List Int) :
    List Derivation → List Symb → List Symb → Option (Bool × List Symb × List Symb)
  | [], grey, black => some (false, grey, black)
  | d :: ds, grey, black =>
    match cycleScanSym recur van d grey black with
    | none => none
    | some (true, g1, b1) => some (true, g1, b1)
    | some (false, g1, b1) => cycleScanDerivs recur van ds g1 b1

/-- `_has_cycle`: three-colour DFS for a cycle in the left-derivation
graph, threading the grey and black sets. -/
def hasCycle (g : Grammar) (van : List Int) :
    Nat → Symb → List Symb → List Symb → Option (Bool × List Symb × List Symb)
  | 0, _, _, _ => none
  | fuel + 1, v, grey, black =>
    let grey1 := addSymb grey v
    let inner :=
      match v with
      | .nt n =>
        match lookupR g.rules n with
        | some ds => cycleScanDerivs (fun s gr bl => hasCycle g van fuel s gr bl) van ds grey1 black
        | none => some (false, grey1, black)
      | .t _ => some (false, grey1, black)
    match inner with
    | none => none
    | some (true, g1, b1) => some (true, g1, b1)
    | some (false, g1, b1) => some (false, g1.erase v, addSymb b1 v)

/-- The outer loop of `_has_left_recursion`: restart the DFS from every
still-white rule key. -/
def hlrLoop (g : Grammar) (van : List Int) (fuel : Nat) :
    List Int → List Symb → List Symb → Option Bool
  | [], _, _ => some false
  | k :: ks, grey, black =>
    if black.contains (Symb.nt k) then hlrLoop g van fuel ks grey black
    else
      match hasCycle g van fuel (.nt k) grey black with
      | none => none
      | some (true, _, _) => some true
      | some (false, g1, b1) => hlrLoop g van fuel ks g1 b1

/-- `_has_left_recursion` (grammar.py:493). -/
def hasLeftRecursion (g : Grammar) (van : List Int) (fuel : Nat) : Option Bool :=
  hlrLoop g van fuel (g.rules.map (fun kv => kv.1)) [] []

/-! ### `_remove_left_recursion` (grammar.py:523) -/

/-- The ordering dictionary `NonTerminal → int`. -/
abbrev Ord := List (Int × Nat)

def lookupOrd : Ord → Int → Option Nat
  | [], _ => none
  | (k, i) :: rest, n => if k = n then some i else lookupOrd rest n

def updOrd : Ord → Int → Nat → Ord
  | [], n, i => [(n, i)]
  | (k, j) :: rest, n, i =>
    if k = n then (n, i) :: rest else (k, j) :: updOrd rest n i

/-- The ordering loop: pop the most recently appended non-terminal,
assign it the next index (re-assigning on duplicates, as the source
does), and push every rhs non-terminal not yet ordered.  `self.__rules[nterm]`
raises `KeyError` on a keyless non-terminal. -/
def orderLoop (g : Grammar) : Nat → Ord → Nat → List Int → Except String Ord
  | 0, ord, _, _ => .ok ord
  | _ + 1, ord, _, [] => .ok ord
  | fuel + 1, ord, i, n :: stack =>
    let ord' := updOrd ord n i
    match lookupR g.rules n with
    | none => .error "KeyError"
    | some ds =>
      let stack' := ds.foldl
        (fun st d =>
          d.foldl
            (fun st s =>
              match s with
              | .nt m => if (lookupOrd ord' m).isNone then m :: st else st
              | .t _ => st) st)
        stack
      orderLoop g fuel ord' (i + 1) stack'

/-- The per-non-terminal body of `_remove_left_recursion`: one-step
indirect expansion of lower-ranked leading non-terminals, then direct
elimination.  When no rule starts with `A_i` itself (`alphas` empty) the
expanded set `new_derive_set` is discarded and the rules are left
untouched, exactly as in the source. -/
def lrOne (ord : Ord) (st : Rules × Int) (ai : Int) (aord : Nat) :
    Except String (Rules × Int) := do
  let rules := st.1
  match lookupR rules ai with
  | none => .error "KeyError"
  | some s => do
    let newDeriveSet ← s.foldlM
      (fun (acc : RuleSet) d => do
        match d with
        | [] => .error "IndexError"
        | first :: tail =>
          match first with
          | .t _ => pure (addDeriv acc d)
          | .nt m =>
            match lookupOrd ord m with
            | none => .error "KeyError"
            | some o =>
              if o ≥ aord ∨ (lookupR rules m).isNone then pure (addDeriv acc d)
              else
                pure (((lookupR rules m).getD []).foldl
                  (fun acc2 jd => addDeriv acc2 (jd ++ tail)) acc))
      []
    let ab ← newDeriveSet.foldlM
      (fun (ab : List Derivation × List Derivation) d => do
        match d with
        | [] => .error "IndexError"
        | first :: tail =>
          if first = Symb.nt ai then pure (ab.1 ++ [tail], ab.2)
          else pure (ab.1, ab.2 ++ [d]))
      ([], [])
    let alphas := ab.1
    let betas := ab.2
    if alphas = [] then pure st
    else
      let adot := st.2
      let aiDerivs := betas.foldl
        (fun acc b => addDeriv acc (b ++ [Symb.nt adot]))
        (betas.foldl addDeriv [])
      let adotDerivs := alphas.foldl
        (fun acc a => addDeriv acc (a ++ [Symb.nt adot]))
        (alphas.foldl addDeriv [])
      pure (updateR (updateR rules ai aiDerivs) adot adotDerivs, adot + 1)

/-- `_remove_left_recursion`: order the non-terminals from the start
symbol, then process them in that order. -/
def removeLeftRecursion (g : Grammar) (fuel : Nat) : Except String Grammar := do
  let ord ← orderLoop g fuel [] 0 [g.initial]
  let next := maxNterm g + 1
  let st ← ord.foldlM (fun st kv => lrOne ord st kv.1 kv.2) (g.rules, next)
  .ok { g with rules := st.1 }

/-! ### Prefix tree (prefix_tree.py) -/

/-- A key of a prefix-tree node: a symbol, or the `EmptyWord` marker used
for ε at the leaf level. -/
inductive PKey where
  | eps : PKey
  | sym : Symb → PKey
deriving DecidableEq, Repr

/-- A prefix-tree node: an insertion-ordered mapping from keys to child
nodes, `none` marking a leaf. -/
inductive PTree where
  | mk : List (PKey × Option PTree) → PTree

def lookupPT : List (PKey × Option PTree) → PKey → Option (Option PTree)
  | [], _ => none
  | (k, v) :: rest, key => if k = key then some v else lookupPT rest key

def updatePT : List (PKey × Option PTree) → PKey → Option PTree → List (PKey × Option PTree)
  | [], key, v => [(key, v)]
  | (k, u) :: rest, key, v =>
    if k = key then (key, v) :: rest else (k, u) :: updatePT rest key v

/-- `analyze_derivation` (prefix_tree.py:8).  The one-symbol case writes
`prefixes[deriv[0]] = None` unconditionally, overwriting any existing
subtree under that symbol. -/
def analyzeDerivation (tree : PTree) (d : Derivation) : PTree :=
  match tree, d with
  | .mk ch, [] => .mk (updatePT ch .eps none)
  | .mk ch, [s] => .mk (updatePT ch (.sym s) none)
  | .mk ch, s :: rest =>
    match lookupPT ch (.sym s) with
    | some none =>
      .mk (updatePT ch (.sym s) (some (analyzeDerivation (.mk [(.eps, none)]) rest)))
    | some (some sub) =>
      .mk (updatePT ch (.sym s) (some (analyzeDerivation sub rest)))
    | none =>
      .mk (updatePT ch (.sym s) (some (analyzeDerivation (.mk []) rest)))

/-- The child loop of `separate_prefixes`: `tSymb` is `()` for the
`EmptyWord` key and the one-symbol tuple otherwise. -/
def sepChildren
    (recur : Grammar → Int → Derivation → Option PTree → Int → Int → Grammar × Int)
    (layer : Int) (cd : Int) (pfx : Derivation) :
    Grammar → Int → List (PKey × Option PTree) → Grammar × Int
  | g, counter, [] => (g, counter)
  | g, counter, (k, node) :: rest =>
    let tSymb : Derivation :=
      match k with
      | .eps => []
      | .sym s => [s]
    let newPfx := if cd ≥ 1 then pfx ++ tSymb else tSymb
    let r := recur g layer newPfx node cd counter
    sepChildren recur layer cd pfx r.1 r.2 rest

/-- `separate_prefixes` (prefix_tree.py:32), with a fuel bound on the
recursion depth (the Python recursion is bounded by the tree depth plus
one).  A `none` root is a leaf and emits `layer → prefix`; at a fork
(`common_depth` falling to 0) a fresh non-terminal from the counter is
allocated and `layer → prefix · fresh` emitted. -/
def separatePrefixes :
    Nat → Grammar → Int → Derivation → Option PTree → Int → Int → Grammar × Int
  | _, g, layer, pfx, none, _, counter => (addRule g layer pfx, counter)
  | 0, g, _, _, some _, _, counter => (g, counter)
  | fuel + 1, g, layer, pfx, some (.mk children), commonDepth, counter =>
    let cd : Int :=
      if commonDepth = -1 then 1
      else if children.length = 1 then commonDepth + 1
      else 0
    if cd ≥ 1 then
      sepChildren (fun g2 l p n c cnt => separatePrefixes fuel g2 l p n c cnt)
        layer cd pfx g counter children
    else
      let newLayer := counter
      let g' := addRule g layer (pfx ++ [Symb.nt newLayer])
      sepChildren (fun g2 l p n c cnt => separatePrefixes fuel g2 l p n c cnt)
        newLayer cd pfx g' (counter + 1) children

/-- `_factorize` (grammar.py:620).  The rebuilt grammar is `Grammar()`
with the default start symbol 0, and the counter of fresh non-terminals
restarts at `max_nterm + 1` for every lhs (the source constructs a new
`itertools.count` per iteration). -/
def factorize (g : Grammar) (fuel : Nat) : Grammar :=
  let next := maxNterm g + 1
  g.rules.foldl
    (fun acc kv =>
      let tree := kv.2.foldl analyzeDerivation (PTree.mk [])
      (separatePrefixes fuel acc kv.1 [] (some tree) (-1) next).1)
    { initial := 0, rules := [] }

/-! ### `prepare_for_checking` (grammar.py:671) -/

/-- The full normalization pipeline.  On the left-recursive branch the
`vanishing` worklist is consumed by `_rebuild_vanishing`, so the
nullable-start restoration tests membership in what remains of it. -/
def prepareForChecking (g : Grammar) (fuel : Nat) : Except String Grammar := do
  let van := vanishing g fuel
  match hasLeftRecursion g van fuel with
  | none => .error "fuel"
  | some true => do
    let p ← rebuildVanishing g van fuel
    let g2 ← removeChainProductions p.1 fuel
    let g3 := removeUseless g2 fuel
    let g4 ← removeLeftRecursion g3 fuel
    let g5 :=
      if p.2.contains g4.initial then
        let ns := minNterm g4 - 1
        let ga := addRule (addRule g4 ns [Symb.nt g4.initial]) ns []
        { ga with initial := ns }
      else g4
    .ok (removeUseless g5 fuel)
  | some false => .ok (removeUseless (factorize g fuel) fuel)

/-! ### `build_first` (grammar.py:717) -/

/-- The FIRST index: `(non-terminal, leading terminal or ε-marker) →
derivations`.  Python keys the ε case with the empty string; here it is
`none`. -/
abbrev First := List ((Int × Option Char) × RuleSet)

def lookupF : First → Int × Option Char → Option RuleSet
  | [], _ => none
  | (k, s) :: rest, key => if k = key then some s else lookupF rest key

def updateF : First → Int × Option Char → RuleSet → First
  | [], key, v => [(key, v)]
  | (k, s) :: rest, key, v =>
    if k = key then (key, v) :: rest else (k, s) :: updateF rest key v

def addFirst (d : First) (key : Int × Option Char) (deriv : Derivation) : First :=
  match lookupF d key with
  | none => d ++ [(key, [deriv])]
  | some s => updateF d key (addDeriv s deriv)

/-- `build_first`: index every rule whose first symbol is a terminal (or
which is ε) under its lhs and that leading terminal (or the ε marker);
rules led by a non-terminal are skipped. -/
def buildFirst (g : Grammar) : First :=
  (grammarPairs g).foldl
    (fun d kd =>
      match kd.2 with
      | .nt _ :: _ => d
      | [] => addFirst d (kd.1, none) []
      | .t c :: _ => addFirst d (kd.1, some c) kd.2)
    []

/-! ### `recursive_descent_parsing` / `check_word` (grammar.py:741) -/

/-- Try the candidate derivations in order, as the two sequential `for`
loops of the source do: the first success wins, a failed candidate moves
on, and a fuel-exhausted candidate (a recursion the source would still be
inside) makes the whole call fuel-exhausted. -/
def tryCands (recur : List Char → List Symb → Option Bool)
    (w : List Char) (rest : List Symb) : List Derivation → Option Bool
  | [] => some false
  | d :: ds =>
    match recur w (d ++ rest) with
    | some true => some true
    | some false => tryCands recur w rest ds
    | none => none

/-- `recursive_descent_parsing`, with fuel bounding the number of
performed steps: `none` means the call has not returned within the given
fuel, and a diverging source run answers `none` at every fuel.  Walking
`predicted` consumes `word` in lockstep over terminals; at a
non-terminal the predicted subset from the FIRST index is tried first,
then every other rule of that non-terminal, each on the remaining word
with the expansion prepended to the remaining prediction. -/
def rdp (g : Grammar) (first : First) : Nat → List Char → List Symb → Option Bool
  | 0, _, _ => none
  | fuel + 1, w, predicted =>
    match predicted with
    | [] => some w.isEmpty
    | .t c :: rest =>
      match w with
      | [] => some false
      | c' :: w' => if c = c' then rdp g first fuel w' rest else some false
    | .nt n :: rest =>
      match lookupR g.rules n with
      | none => some false
      | some derivs =>
        let pred := (lookupF first (n, w.head?)).getD []
        tryCands (fun w2 p2 => rdp g first fuel w2 p2) w rest
          (pred ++ derivs.filter (fun d => ¬ pred.contains d))

/-- `check_word` (grammar.py:778): parse the word against the derivation
`(start,)` using the FIRST index built from the grammar. -/
def checkWord (g : Grammar) (fuel : Nat) (w : List Char) : Option Bool :=
  rdp g (buildFirst g) fuel w [Symb.nt g.initial]

/-! ### Derivability (the language of a grammar) -/

/-- The rule set of a non-terminal, empty when keyless. -/
def rulesOf (g : Grammar) (n : Int) : RuleSet :=
  (lookupR g.rules n).getD []

/-- One rewriting step: replace one non-terminal occurrence by one of its
right-hand sides. -/
inductive Step (g : Grammar) : List Symb → List Symb → Prop
  | mk (pre post : List Symb) (n : Int) (rhs : Derivation)
      (hr : rhs ∈ rulesOf g n) :
      Step g (pre ++ Symb.nt n :: post) (pre ++ rhs ++ post)

/-- Finitely many rewriting steps. -/
inductive Derives (g : Grammar) : List Symb → List Symb → Prop
  | refl (x : List Symb) : Derives g x x
  | head {x y z : List Symb} (h : Step g x y) (hd : Derives g y z) : Derives g x z

/-- `w` is in the language of `g`: the start symbol derives the word. -/
def Generates (g : Grammar) (w : List Char) : Prop :=
  Derives g [Symb.nt g.initial] (w.map Symb.t)

/-- One leftmost rewriting step: the rewritten non-terminal is preceded
by terminals only. -/
inductive LStep (g : Grammar) : List Symb → List Symb → Prop
  | mk (pre post : List Symb) (n : Int) (rhs : Derivation)
      (hpre : ∀ s ∈ pre, ∃ c, s = Symb.t c)
      (hr : rhs ∈ rulesOf g n) :
      LStep g (pre ++ Symb.nt n :: post) (pre ++ rhs ++ post)

/-- One or more leftmost rewriting steps. -/
inductive LDerivPlus (g : Grammar) : List Symb → List Symb → Prop
  | single {x y : List Symb} (h : LStep g x y) : LDerivPlus g x y
  | head {x y z : List Symb} (h : LStep g x y) (hd : LDerivPlus g y z) : LDerivPlus g x z

/-! ### Stated invariants -/

/-- The lhs of every ε-production of the grammar. -/
def epsLhs (g : Grammar) : List Int :=
  g.rules.foldr (fun kv acc => if kv.2.contains [] then kv.1 :: acc else acc) []

/-- Whether a non-terminal occurs on some right-hand side. -/
def onSomeRhs (g : Grammar) (n : Int) : Bool :=
  g.rules.any (fun kv => kv.2.any (fun d => d.contains (Symb.nt n)))

/-- The ε-placement invariant of the specification: either no rule has an
empty right-hand side, or exactly one rule `X → ε` exists, its lhs is the
start symbol, and the start symbol appears on no right-hand side. -/
def epsPlacement (g : Grammar) : Bool :=
  match epsLhs g with
  | [] => true
  | [k] => k == g.initial && !(onSomeRhs g g.initial)
  | _ => false

/-- Whether a non-terminal occurs anywhere in the grammar: as the start
symbol, as a lhs key, or inside a right-hand side. -/
def occursNT (g : Grammar) (n : Int) : Bool :=
  n == g.initial || g.rules.any (fun kv => kv.1 == n) || onSomeRhs g n

/-! ### Concrete grammars used by the claims -/

/-- `S → dA, A → Bx, B → Cy, C → Az | w` (S=0, A=1, B=2, C=3): an
indirect left-recursive chain `A ⇒ Bx ⇒ Cyx ⇒ Azyx` whose elimination the
pipeline is expected to perform. -/
def gRec : Grammar :=
  ⟨0, [(0, [[.t 'd', .nt 1]]),
       (1, [[.nt 2, .t 'x']]),
       (2, [[.nt 3, .t 'y']]),
       (3, [[.nt 1, .t 'z'], [.t 'w']])]⟩

/-- `S → ab | a` with the derivations in that insertion order. -/
def gClobber : Grammar := ⟨0, [(0, [[.t 'a', .t 'b'], [.t 'a']])]⟩

/-- `S → a`: a one-rule grammar. -/
def gSingle : Grammar := ⟨0, [(0, [[.t 'a']])]⟩

/-- `S → Sa | B, B → ε` (S=0, B=1): `S` vanishes only indirectly, and `S`
is directly left-recursive. -/
def gIndirectEps : Grammar := ⟨0, [(0, [[.nt 0, .t 'a'], [.nt 1]]), (1, [[]])]⟩

/-- Scenario S4 of the specification: `S → aAb, A → c | ε` (S=0, A=1). -/
def gS4 : Grammar := ⟨0, [(0, [[.t 'a', .nt 1, .t 'b']]), (1, [[.t 'c'], []])]⟩

/-- Scenario S1 of the specification: `S → SS | (S) | ε`. -/
def gS1 : Grammar := ⟨0, [(0, [[.nt 0, .nt 0], [.t '(', .nt 0, .t ')'], []])]⟩

/-- `S → Sa | b`: a directly left-recursive grammar. -/
def gSa : Grammar := ⟨0, [(0, [[.nt 0, .t 'a'], [.t 'b']])]⟩

/-- What `prepare_for_checking` makes of `gSa`:
`S → b | bA', A' → a | aA'`. -/
def gSaPrep1 : Grammar :=
  ⟨0, [(0, [[.t 'b'], [.t 'b', .nt 1]]), (1, [[.t 'a'], [.t 'a', .nt 1]])]⟩

/-- What a second `prepare_for_checking` makes of `gSaPrep1` (the
left-factoring branch refactors it): `S → bN, N → ε | A', A' → aN`. -/
def gSaPrep2 : Grammar :=
  ⟨0, [(0, [[.t 'b', .nt 2]]), (2, [[], [.nt 1]]), (1, [[.t 'a', .nt 2]])]⟩

/-- Start symbol 0, one production `5 → a`: the non-terminal 0 occurs (as
the start) and is smaller than every lhs. -/
def gMinBug : Grammar := ⟨0, [(5, [[.t 'a']])]⟩

/-- The empty grammar with start symbol 0. -/
def gEmpty : Grammar := ⟨0, []⟩

/-! ### Helper lemmas -/

/-- A candidate list headed by a derivation whose parse runs out of fuel
makes the whole candidate trial run out of fuel. -/
theorem tryCands_none {recur : List Char → List Symb → Option Bool}
    {w : List Char} {rest : List Symb} {d : Derivation} {ds : List Derivation}
    (h : recur w (d ++ rest) = none) :
    tryCands recur w rest (d :: ds) = none := by
  simp [tryCands, h]

/-- On the empty remaining word, expanding any of the non-terminals of
the left-recursive cycle of `gRec` never returns, at any fuel: the cycle
`A ⇒ Bx ⇒ Cyx ⇒ Azyx` grows the prediction without consuming input. -/
theorem rdp_gRec_diverges (f : Nat) (rest : List Symb) :
    rdp gRec (buildFirst gRec) f [] (Symb.nt 1 :: rest) = none ∧
    rdp gRec (buildFirst gRec) f [] (Symb.nt 2 :: rest) = none ∧
    rdp gRec (buildFirst gRec) f [] (Symb.nt 3 :: rest) = none := by
  induction f generalizing rest with
  | zero => exact ⟨rfl, rfl, rfl⟩
  | succ f ih =>
    refine ⟨?_, ?_, ?_⟩
    · show tryCands (fun w2 p2 => rdp gRec (buildFirst gRec) f w2 p2) [] rest
        [[Symb.nt 2, Symb.t 'x']] = none
      exact tryCands_none (ih (Symb.t 'x' :: rest)).2.1
    · show tryCands (fun w2 p2 => rdp gRec (buildFirst gRec) f w2 p2) [] rest
        [[Symb.nt 3, Symb.t 'y']] = none
      exact tryCands_none (ih (Symb.t 'y' :: rest)).2.2
    · show tryCands (fun w2 p2 => rdp gRec (buildFirst gRec) f w2 p2) [] rest
        [[Symb.nt 1, Symb.t 'z'], [Symb.t 'w']] = none
      exact tryCands_none (ih (Symb.t 'z' :: rest)).1

/-- `check_word` on `gRec` and the word "d" runs out of any fuel: the
call enters the cycle after consuming the leading `d`. -/
theorem checkWord_gRec_diverges : ∀ f, checkWord gRec f ['d'] = none
  | 0 => rfl
  | f + 1 => by
    show tryCands (fun w2 p2 => rdp gRec (buildFirst gRec) f w2 p2) ['d'] []
      [[Symb.t 'd', Symb.nt 1]] = none
    cases f with
    | zero => rfl
    | succ f' =>
      apply tryCands_none
      show rdp gRec (buildFirst gRec) f' [] [Symb.nt 1] = none
      exact (rdp_gRec_diverges f' []).1

/-- Unpacked form of a rewriting step. -/
theorem step_inv {g : Grammar} {x y : List Symb} (h : Step g x y) :
    ∃ pre post n rhs, rhs ∈ rulesOf g n ∧
      x = pre ++ Symb.nt n :: post ∧ y = pre ++ rhs ++ post := by
  cases h with
  | mk pre post n rhs hr => exact ⟨pre, post, n, rhs, hr, rfl, rfl⟩

/-- In `gSingle` the only step from the start form rewrites it to `a`. -/
theorem step_gSingle_start {y : List Symb} (h : Step gSingle [Symb.nt 0] y) :
    y = [Symb.t 'a'] := by
  obtain ⟨pre, post, n, rhs, hr, hx, hy⟩ := step_inv h
  rcases pre with _ | ⟨a, pre'⟩
  · simp only [List.nil_append] at hx
    simp at hx
    obtain ⟨hn, hpost⟩ := hx
    subst hpost
    have hn' : n = 0 := hn.symm
    subst hn'
    have hrhs : rhs = [Symb.t 'a'] := by
      simpa [rulesOf, gSingle, lookupR] using hr
    simp [hy, hrhs]
  · exact absurd hx (by simp)

/-- No step applies to the pure-terminal form `[a]`. -/
theorem step_gSingle_terminal {y : List Symb} (h : Step gSingle [Symb.t 'a'] y) :
    False := by
  obtain ⟨pre, post, n, rhs, hr, hx, hy⟩ := step_inv h
  rcases pre with _ | ⟨a, pre'⟩
  · exact absurd hx (by simp)
  · exact absurd hx (by simp)

/-- Everything derivable in `gSingle` from the start form is the start
form or the word `a`. -/
theorem derives_gSingle {x y : List Symb} (h : Derives gSingle x y) :
    (x = [Symb.nt 0] → y = [Symb.nt 0] ∨ y = [Symb.t 'a']) ∧
    (x = [Symb.t 'a'] → y = [Symb.t 'a']) := by
  induction h with
  | refl z => exact ⟨fun hx => Or.inl hx, fun hx => hx⟩
  | head hstep htail ih =>
    refine ⟨fun hx => ?_, fun hx => ?_⟩
    · subst hx
      exact Or.inr (ih.2 (step_gSingle_start hstep))
    · subst hx
      exact absurd hstep (fun hc => step_gSingle_terminal hc)

/-- Python set equality of derivation sets, characterized by membership. -/
theorem derivSetEq_iff (s u : RuleSet) :
    derivSetEq s u = true ↔ ∀ d : Derivation, d ∈ s ↔ d ∈ u := by
  simp only [derivSetEq, Bool.and_eq_true, List.all_eq_true]
  constructor
  · rintro ⟨h1, h2⟩ d
    constructor
    · intro hd
      have := h1 d hd
      simpa [List.elem_iff] using this
    · intro hd
      have := h2 d hd
      simpa [List.elem_iff] using this
  · intro h
    constructor
    · intro d hd
      simpa [List.elem_iff] using (h d).mp hd
    · intro d hd
      simpa [List.elem_iff] using (h d).mpr hd

/-! ### Claims -/

/-- Claim C1: for every grammar returned by `prepare_for_checking` and
every string, `check_word` terminates, raises no error and decides
membership.  Refuted by the code: `prepare_for_checking` returns `gRec`
unchanged (its left-recursion elimination discards the expanded rule set
whenever no direct recursion is present), and on the word "d" the
checker never returns at any recursion depth — the Python original
exhausts the interpreter stack. -/
theorem c1_checkWord_diverges_on_prepared :
    prepareForChecking gRec 32 = Except.ok gRec ∧
    ∀ f, checkWord gRec f ['d'] = none :=
  ⟨rfl, checkWord_gRec_diverges⟩

/-- Witness for C1 at a concrete fuel. -/
theorem c1_witness : checkWord gRec 9 ['d'] = none :=
  c1_checkWord_diverges_on_prepared.2 9

/-- Claim C2: the prepared grammar generates the same language as the
original.  Refuted by the code: with the rule set of `S → ab | a`
inserted in that order, `analyze_derivation`'s one-symbol case overwrites
the subtree holding `ab`, and the prepared grammar `S → a` no longer
generates the word "ab" that the original does. -/
theorem c2_factorization_loses_word :
    prepareForChecking gClobber 32 = Except.ok gSingle ∧
    Generates gClobber ['a', 'b'] ∧
    ¬ Generates gSingle ['a', 'b'] := by
  refine ⟨rfl, ?_, ?_⟩
  · exact Derives.head
      (Step.mk [] [] 0 [Symb.t 'a', Symb.t 'b'] (by decide))
      (Derives.refl _)
  · intro hgen
    have h := (derives_gSingle hgen).1 rfl
    rcases h with h | h <;> exact absurd h (by decide)

/-- Claim C3: `prepare_for_checking` never raises on a syntactically
valid grammar, because ε-elimination deletes only direct ε-productions.
Refuted by the code: on `S → Sa | B, B → ε` the start symbol vanishes
only indirectly, yet `_rebuild_vanishing` calls `del_rule(S, ε)` and the
pipeline raises `KeyError`. -/
theorem c3_pipeline_raises_on_indirect_vanishing :
    prepareForChecking gIndirectEps 32 = Except.error "KeyError" := rfl

/-- Claim C4: no grammar returned by `prepare_for_checking` has a
leftmost derivation chain `A ⇒+ A β`.  Refuted by the code: `gRec` is
returned unchanged and its non-terminal 1 reaches itself by the leftmost
chain `A ⇒ Bx ⇒ Cyx ⇒ Azyx`. -/
theorem c4_prepared_grammar_left_recursive :
    prepareForChecking gRec 32 = Except.ok gRec ∧
    ∃ β, LDerivPlus gRec [Symb.nt 1] (Symb.nt 1 :: β) := by
  refine ⟨rfl, [Symb.t 'z', Symb.t 'y', Symb.t 'x'], ?_⟩
  have s1 : LStep gRec [Symb.nt 1] [Symb.nt 2, Symb.t 'x'] :=
    LStep.mk [] [] 1 [Symb.nt 2, Symb.t 'x'] (by simp) (by decide)
  have s2 : LStep gRec [Symb.nt 2, Symb.t 'x'] [Symb.nt 3, Symb.t 'y', Symb.t 'x'] :=
    LStep.mk [] [Symb.t 'x'] 2 [Symb.nt 3, Symb.t 'y'] (by simp) (by decide)
  have s3 : LStep gRec [Symb.nt 3, Symb.t 'y', Symb.t 'x']
      [Symb.nt 1, Symb.t 'z', Symb.t 'y', Symb.t 'x'] :=
    LStep.mk [] [Symb.t 'y', Symb.t 'x'] 3 [Symb.nt 1, Symb.t 'z'] (by simp) (by decide)
  exact LDerivPlus.head s1 (LDerivPlus.head s2 (LDerivPlus.single s3))

/-- Claim C5 counterexample: the ε-placement invariant fails on the
left-factoring branch.  Scenario S4 (`S → aAb, A → c | ε`) is returned
by `prepare_for_checking` with the rule `A → ε` intact, `A ≠ S`. -/
theorem c5_eps_placement_fails_on_factoring_branch :
    prepareForChecking gS4 32 = Except.ok gS4 ∧
    epsPlacement gS4 = false ∧
    rulesOf gS4 1 = [[Symb.t 'c'], []] ∧
    gS4.initial ≠ 1 := by
  exact ⟨rfl, rfl, rfl, by decide⟩

/-- Claim C5 (amended): the ε-placement invariant holds for the grammar
the left-recursive branch produces from scenario S1 (`S → SS | (S) | ε`),
while the left-factoring branch can return grammars violating it (see
the counterexample). -/
theorem c5_eps_placement_on_recursive_branch_instance :
    hasLeftRecursion gS1 (vanishing gS1 32) 32 = some true ∧
    (prepareForChecking gS1 32).map epsPlacement = Except.ok true :=
  ⟨rfl, rfl⟩

/-- Claim C6: the recursive-descent procedure terminates on every
recursion path for prepared grammars.  Refuted by the code: on the
prepared grammar `gRec` (returned unchanged by the pipeline), expanding
any non-terminal of the cycle on the exhausted suffix never returns,
whatever the fuel — the prediction grows by `A ⇒ Bx ⇒ Cyx ⇒ Azyx`
without consuming input. -/
theorem c6_descent_never_returns :
    prepareForChecking gRec 32 = Except.ok gRec ∧
    ∀ f rest, rdp gRec (buildFirst gRec) f [] (Symb.nt 1 :: rest) = none :=
  ⟨rfl, fun f rest => (rdp_gRec_diverges f rest).1⟩

/-- Witness for C6 at a concrete fuel and continuation. -/
theorem c6_witness : rdp gRec (buildFirst gRec) 9 [] [Symb.nt 1] = none :=
  c6_descent_never_returns.2 9 []

/-- Claim C7 counterexample: `prepare_for_checking` is not idempotent.
On `S → Sa | b` the first application returns `S → b | bA', A' → a | aA'`
through the left-recursive branch; the second application takes the
left-factoring branch and produces a different grammar (the source's
`__eq__` also rejects the pair in both orders). -/
theorem c7_not_idempotent :
    prepareForChecking gSa 32 = Except.ok gSaPrep1 ∧
    prepareForChecking gSaPrep1 32 = Except.ok gSaPrep2 ∧
    gSaPrep2 ≠ gSaPrep1 ∧
    grammarEq gSaPrep2 gSaPrep1 = false ∧
    grammarEq gSaPrep1 gSaPrep2 = false := by
  exact ⟨rfl, rfl, by decide, rfl, rfl⟩

/-- Claim C7 (amended): a second application can differ from the first,
but for this grammar the process stabilizes there: the output of the
second application is a fixed point of `prepare_for_checking`. -/
theorem c7_second_application_fixed_point :
    prepareForChecking gSaPrep2 32 = Except.ok gSaPrep2 := rfl

/-- Claim C8: `min_nterm` returns the minimum of the non-terminals
occurring anywhere.  Refuted by the code: its lhs scan uses the same
`>` comparison as `max_nterm`, so on the grammar with start 0 and the
single production `5 → a` it returns 5 although 0 occurs. -/
theorem c8_minNterm_not_minimum :
    minNterm gMinBug = 5 ∧ occursNT gMinBug 0 = true ∧ (0 : Int) < 5 :=
  ⟨rfl, rfl, by decide⟩

/-- Claim C9 counterexample: `__eq__` is not the stated structural
equality and is not symmetric: the empty grammar compares equal to
`S → a` while the converse comparison and the rule mappings differ. -/
theorem c9_eq_not_symmetric :
    grammarEq gEmpty gSingle = true ∧
    grammarEq gSingle gEmpty = false ∧
    gEmpty.rules ≠ gSingle.rules :=
  ⟨rfl, rfl, by decide⟩

/-- Claim C9 (amended): `g1 == g2` holds iff the start symbols agree and
`g1`'s rule mapping is a sub-mapping of `g2`'s — every lhs of `g1` is
mapped by `g2` to a set with the same elements; keys present only in
`g2` are not examined, so the relation is not symmetric. -/
theorem c9_eq_iff_submapping (a b : Grammar) :
    grammarEq a b = true ↔
      (a.initial = b.initial ∧
       ∀ kv ∈ a.rules, ∃ s, lookupR b.rules kv.1 = some s ∧
         ∀ d : Derivation, d ∈ kv.2 ↔ d ∈ s) := by
  simp only [grammarEq, Bool.and_eq_true, beq_iff_eq, List.all_eq_true]
  constructor
  · rintro ⟨h1, h2⟩
    refine ⟨h1, fun kv hkv => ?_⟩
    have h3 := h2 kv hkv
    cases hl : lookupR b.rules kv.1 with
    | none => rw [hl] at h3; exact absurd h3 (by simp)
    | some s =>
      rw [hl] at h3
      exact ⟨s, rfl, (derivSetEq_iff _ _).mp h3⟩
  · rintro ⟨h1, h2⟩
    refine ⟨h1, fun kv hkv => ?_⟩
    obtain ⟨s, hl, hs⟩ := h2 kv hkv
    rw [hl]
    exact (derivSetEq_iff _ _).mpr hs

/-- Witness for C9 at concrete grammars. -/
theorem c9_witness :
    grammarEq gEmpty gSingle = true ↔
      (gEmpty.initial = gSingle.initial ∧
       ∀ kv ∈ gEmpty.rules, ∃ s, lookupR gSingle.rules kv.1 = some s ∧
         ∀ d : Derivation, d ∈ kv.2 ↔ d ∈ s) :=
  c9_eq_iff_submapping gEmpty gSingle

/-- Claim C10: when the start non-terminal has no entry in the rule
mapping, `check_word` returns false for every word (the parser hits the
`symb not in self.__rules` guard immediately). -/
theorem c10_keyless_start_rejects_all (g : Grammar) (f : Nat) (w : List Char)
    (h : lookupR g.rules g.initial = none) :
    checkWord g (f + 1) w = some false := by
  show rdp g (buildFirst g) (f + 1) w [Symb.nt g.initial] = some false
  simp [rdp, h]

/-- Witness for C10: the empty grammar rejects "ab" (and ""). -/
theorem c10_witness :
    checkWord gEmpty 1 ['a', 'b'] = some false ∧ checkWord gEmpty 1 [] = some false :=
  ⟨c10_keyless_start_rejects_all gEmpty 0 ['a', 'b'] rfl,
   c10_keyless_start_rejects_all gEmpty 0 [] rfl⟩

end Dsl
